import Mathlib

/-!
# A verification model of the italo-api extraction/encoding core

Shallow embedding of the data-extraction and encoding layer of the
`italo-api` Rust crate: the embedded-timestamp codec (`extract_utc_time`,
`DATE_TIME_PATTERN`), the marker-delimited extractor and station catalog
builder (`station_list`), the journey request builder (`set_round_trip`,
interval setters, serde serialization shape) and the session gate
(`init` / `find_journeys`).

Rust strings are modelled as `List Char` (Unicode scalar values, as
iterated by Rust `char`s); `i64` values as `Int` with explicit range
checks where the Rust code can overflow or `chrono` can reject a value;
fallible Rust code returns `Except`/`Option`, and code that can `panic!`
returns a `RustOutcome` with an explicit `panicked` constructor.
-/

namespace ItaloApiModel

/-- Outcome of running a Rust function that may return `Ok`, return an
`anyhow` error, or panic (e.g. through `expect`). -/
inductive RustOutcome (α : Type) where
  | ok (val : α)
  | err (msg : String)
  | panicked (msg : String)
deriving DecidableEq, Repr

/-! ## String primitives

Models of the Rust `str` methods used by the crate: `split_once` with a
`char` pattern, `split_once` with a `&str` pattern, `trim_end`,
`trim_end_matches`, and `i64::from_str` (`str::parse::<i64>`). -/

/-- Model of Rust `str::split_once(c : char)`: splits at the first
occurrence of `c`, returning the text before and after it. -/
def splitOnceChar (c : Char) : List Char → Option (List Char × List Char)
  | [] => none
  | x :: xs =>
    if x = c then some ([], xs)
    else (splitOnceChar c xs).map (fun p => (x :: p.1, p.2))

/-- The test `listStartsWith pat s` holds when `pat` is an initial segment of `s`
(Rust `str::starts_with`). -/
def listStartsWith : List Char → List Char → Bool
  | [], _ => true
  | _ :: _, [] => false
  | p :: ps, c :: cs => p = c && listStartsWith ps cs

/-- Model of Rust `str::split_once(pat : &str)`: splits at the first
occurrence of the substring `pat`. -/
def splitOnceStr (s pat : List Char) : Option (List Char × List Char) :=
  if listStartsWith pat s then some ([], s.drop pat.length)
  else
    match s with
    | [] => none
    | c :: rest => (splitOnceStr rest pat).map (fun p => (c :: p.1, p.2))

/-- The Unicode `White_Space` set, as used by Rust `char::is_whitespace`. -/
def isRustWhitespace (c : Char) : Bool :=
  c = ' ' || c = '\t' || c = '\n' || c = '\x0b' || c = '\x0c' || c = '\r' ||
  c = '\u0085' || c = ' ' || c = ' ' ||
  (' ' ≤ c && c ≤ ' ') ||
  c = ' ' || c = ' ' || c = ' ' || c = ' ' || c = '　'

/-- Model of Rust `str::trim_end`: drop all trailing whitespace. -/
def trimEnd (s : List Char) : List Char :=
  (s.reverse.dropWhile isRustWhitespace).reverse

/-- Model of Rust `str::trim_end_matches(c : char)`: drop **all** trailing
occurrences of `c` (repeatedly, not just one). -/
def trimEndMatchesChar (c : Char) (s : List Char) : List Char :=
  (s.reverse.dropWhile (· = c)).reverse

/-- ASCII digit test (`char::is_ascii_digit`). -/
def isAsciiDigit (c : Char) : Bool := '0' ≤ c && c ≤ '9'

/-- Accumulator loop of decimal `Nat` parsing: consumes ASCII digits
left to right, failing on any non-digit. -/
def parseDigitsAux : List Char → Nat → Option Nat
  | [], acc => some acc
  | c :: cs, acc =>
    if isAsciiDigit c then parseDigitsAux cs (10 * acc + (c.toNat - 48))
    else none

/-- Parse a non-empty all-digit string as a `Nat`; `none` on the empty
string or any non-digit character. -/
def parseNatDigits : List Char → Option Nat
  | [] => none
  | c :: cs => parseDigitsAux (c :: cs) 0

/-- The constant `i64::MAX`. -/
def i64Max : Nat := 9223372036854775807

/-- Model of Rust `str::parse::<i64>` (`i64::from_str`): an optional `+`
or `-` sign followed by one or more ASCII digits, rejecting values
outside the `i64` range. -/
def parseI64 (cs : List Char) : Option Int :=
  match cs with
  | [] => none
  | c :: rest =>
    if c = '+' then
      (parseNatDigits rest).bind fun v =>
        if v ≤ i64Max then some (v : Int) else none
    else if c = '-' then
      (parseNatDigits rest).bind fun v =>
        if v ≤ i64Max + 1 then some (-(v : Int)) else none
    else
      (parseNatDigits (c :: rest)).bind fun v =>
        if v ≤ i64Max then some (v : Int) else none

/-! ## Decimal printing

Model of the decimal rendering Rust uses when formatting an integer
(chrono's `%s` specifier and integer `Display`). -/

/-- Digit-emitting loop: most significant digits first; `fuel` bounds the
recursion (any `fuel ≥` the digit count is exact). -/
def natToDigitsAux (fuel : Nat) (n : Nat) : List Char :=
  match fuel with
  | 0 => []
  | fuel + 1 =>
    if n = 0 then []
    else natToDigitsAux fuel (n / 10) ++ [Char.ofNat (48 + n % 10)]

/-- Decimal rendering of a `Nat` (20 digits of fuel covers every `u64`,
hence every `i64` magnitude). -/
def natToDecimal (n : Nat) : List Char :=
  if n = 0 then ['0'] else natToDigitsAux 20 n

/-- Decimal rendering of an `Int`, with `-` for negative values. -/
def intToDecimal (n : Int) : List Char :=
  if n < 0 then '-' :: natToDecimal (-n).toNat else natToDecimal n.toNat

/-! ## chrono calendar range

`chrono`'s `NaiveDate` covers `-262144-01-01` to `262143-12-31`
(proleptic Gregorian).  `DateTime::from_timestamp(secs, 0)` returns
`Some` exactly when `secs` lands inside that range; likewise
`NaiveDateTime::from_timestamp_millis`.  Days are counted with the
standard civil-from-days algorithm. -/

/-- Days from 1970-01-01 to the proleptic-Gregorian date `y-m-d`
(Howard Hinnant's `days_from_civil`). -/
def days_from_civil (y m d : Int) : Int :=
  let y := if m ≤ 2 then y - 1 else y
  let era := y.fdiv 400
  let yoe := y - era * 400
  let mp := (m + 9) % 12
  let doy := (153 * mp + 2).fdiv 5 + d - 1
  let doe := yoe * 365 + yoe.fdiv 4 - yoe.fdiv 100 + doy
  era * 146097 + doe - 719468

/-- Smallest whole-second timestamp representable by `chrono`
(`-262143-01-01T00:00:00`, i.e. `MIN_UTC.timestamp() = -8334601228800`). -/
def minChronoSecs : Int := days_from_civil (-262143) 1 1 * 86400

/-- Largest whole-second timestamp representable by `chrono`
(`262142-12-31T23:59:59`, i.e. `MAX_UTC.timestamp() = 8210266876799`). -/
def maxChronoSecs : Int := days_from_civil 262142 12 31 * 86400 + 86399

/-- Whether `DateTime::from_timestamp(secs, 0)` returns `Some`. -/
def fromTimestampOk (secs : Int) : Bool :=
  minChronoSecs ≤ secs && secs ≤ maxChronoSecs

/-- Whether `NaiveDateTime::from_timestamp_millis(ms)` returns `Some`. -/
def fromTimestampMillisOk (ms : Int) : Bool :=
  minChronoSecs * 1000 ≤ ms && ms ≤ maxChronoSecs * 1000 + 999

/-! ## The timestamp codec (`src/journey/mod.rs`) -/

/-- Model of `extract_utc_time` (src/journey/mod.rs:17-31): split at the
first `(`, split the remainder at the first `+`, parse the left part as
`i64` — with `.expect(...)`, hence a **panic** on parse failure — divide
by 1000 (Rust `i64` division truncates toward zero) and build the
`DateTime` from that many epoch seconds.  The result is the decoded
instant as epoch seconds. -/
def extract_utc_time (s : List Char) : RustOutcome Int :=
  match splitOnceChar '(' s with
  | none => .err "Failed to extract dateTime"
  | some (_, afterParen) =>
    match splitOnceChar '+' afterParen with
    | none => .err "Failed to extract dateTime"
    | some (run, _) =>
      match parseI64 run with
      | none => .panicked "Timestamp conversion failed"
      | some n =>
        let secs := n.tdiv 1000
        if fromTimestampOk secs then .ok secs
        else .err "invalid timestamp"

/-- Model of `val.format(DATE_TIME_PATTERN)` with
`DATE_TIME_PATTERN = "/Date(%s000+0000)/"` (src/journey/mod.rs:14):
`%s` renders the instant's epoch **seconds** (floor of milliseconds),
then the pattern appends the literal characters `000+0000)/`.  The
argument is the instant as epoch milliseconds. -/
def encodeJourneyDateTime (ms : Int) : List Char :=
  "/Date(".data ++ intToDecimal (ms.fdiv 1000) ++ "000+0000)/".data

/-- Model of `JourneysSolution::departure_date`'s timestamp extraction
(src/journey/mod.rs:184-203): same two splits, but the parse failure is
an error (`.context`), the digit run is fed to
`NaiveDateTime::from_timestamp_millis` **without** division, and the
result is the interpreted instant as epoch milliseconds (the method then
truncates it to a `NaiveDate`). -/
def departure_date_instant_ms (s : List Char) : RustOutcome Int :=
  match splitOnceChar '(' s with
  | none => .err "Failed to extract date"
  | some (_, afterParen) =>
    match splitOnceChar '+' afterParen with
    | none => .err "Failed to extract date"
    | some (run, _) =>
      match parseI64 run with
      | none => .err "Failed to parse timestamp"
      | some n =>
        if fromTimestampMillisOk n then .ok n
        else .err "Failed to parse Date"

/-- The instant denoted by a successful `extract_utc_time` decode, as
epoch milliseconds (`JourneySegment`/`Stop` time accessors). -/
def extract_utc_time_instant_ms (s : List Char) : RustOutcome Int :=
  match extract_utc_time s with
  | .ok secs => .ok (secs * 1000)
  | .err m => .err m
  | .panicked m => .panicked m

/-- A service-shaped encoded timestamp whose digit run is the decimal
rendering of `n`: `/Date(<n>+0000)/`. -/
def encodedTimestampString (n : Int) : List Char :=
  "/Date(".data ++ intToDecimal n ++ "+0000)/".data

/-- There is an occurrence of `pat` starting at position `i` of `s`. -/
def occursAt (pat s : List Char) (i : Nat) : Prop :=
  listStartsWith pat (s.drop i) = true

instance (pat s : List Char) (i : Nat) : Decidable (occursAt pat s i) := by
  unfold occursAt; infer_instance

/-- No occurrence of `pat` starts before position `n` of `s`. -/
def noOccursBefore (pat s : List Char) (n : Nat) : Prop :=
  ∀ i < n, ¬ occursAt pat s i

instance (pat s : List Char) (n : Nat) : Decidable (noOccursBefore pat s n) := by
  unfold noOccursBefore; infer_instance

/-- Predicate: `pat` does not occur anywhere in `s` (positions beyond `s.length`
can only host an occurrence of the empty pattern, which also occurs at
position `0`, so the bound is complete). -/
def noOccurs (pat s : List Char) : Prop :=
  noOccursBefore pat s (s.length + 1)

instance (pat s : List Char) : Decidable (noOccurs pat s) := by
  unfold noOccurs; infer_instance

/-- Lift an `Except` result into a `RustOutcome`. -/
def exceptToOutcome {α : Type} : Except String α → RustOutcome α
  | .ok a => .ok a
  | .error e => .err e

instance {ε α : Type} [DecidableEq ε] [DecidableEq α] :
    DecidableEq (Except ε α) := fun x y =>
  match x, y with
  | .ok a, .ok b =>
    if h : a = b then isTrue (by rw [h])
    else isFalse (by intro hc; injection hc; exact h ‹_›)
  | .error e, .error f =>
    if h : e = f then isTrue (by rw [h])
    else isFalse (by intro hc; injection hc; exact h ‹_›)
  | .ok _, .error _ => isFalse (by intro hc; cases hc)
  | .error _, .ok _ => isFalse (by intro hc; cases hc)

/-! ## Marker-delimited extraction and the station catalog
(`src/lib.rs` `station_list`, `src/station/mod.rs`) -/

/-- Raw label record parsed from the label-list region
(`StationLabel`, src/station/mod.rs:13-18). -/
structure StationLabel where
  label : String
  value : String
deriving DecidableEq, Repr

/-- Raw code record parsed from the code-list region
(`StationCode`, src/station/mod.rs:5-11). -/
structure StationCode where
  code : String
  url_coding : String
deriving DecidableEq, Repr

/-- Station metadata (`Station`, src/station/mod.rs:20-33). -/
structure Station where
  code : String
  url_coding : String
  name : String
deriving DecidableEq, Repr

/-- One marker-extraction step of `station_list` (src/lib.rs:70-88):
`doc.split_once(A)?.1.split_once(B)?.0.trim_end().trim_end_matches(';')`,
failing with the given message when the corresponding marker is absent. -/
def extract_region (doc A B : List Char) (errA errB : String) :
    Except String (List Char) :=
  match splitOnceStr doc A with
  | none => .error errA
  | some (_, afterA) =>
    match splitOnceStr afterA B with
    | none => .error errB
    | some (between, _) => .ok (trimEndMatchesChar ';' (trimEnd between))

/-- The variant of the claim's trimming that removes only a **single**
trailing `';'` (what the specification describes), for comparison with
`extract_region`. -/
def extract_region_single_semi (doc A B : List Char) (errA errB : String) :
    Except String (List Char) :=
  match splitOnceStr doc A with
  | none => .error errA
  | some (_, afterA) =>
    match splitOnceStr afterA B with
    | none => .error errB
    | some (between, _) =>
      let t := trimEnd between
      .ok (if t.getLast? = some ';' then t.dropLast else t)

/-- The three markers used by `station_list` (src/lib.rs:71,74,83). -/
def stationListMarker : List Char := "ItaloInViaggio.Resources.stationList = ".data

/-- Second `station_list` marker. -/
def stationCodingMarker : List Char := "ItaloInViaggio.Resources.stationCoding = ".data

/-- Third `station_list` marker (right boundary of the code region). -/
def localizzationMarker : List Char := "ItaloInViaggio.Resources.localizzation".data

/-- The marker-extraction phase of `station_list` (src/lib.rs:70-88):
isolates the trimmed label-list region and the trimmed code-list region
(JSON parsing of the regions is a separate step). -/
def station_list_extract (doc : List Char) :
    Except String (List Char × List Char) :=
  match splitOnceStr doc stationListMarker with
  | none => .error "stationList not found"
  | some (_, r1) =>
    match splitOnceStr r1 stationCodingMarker with
    | none => .error "stationCoding not found"
    | some (labelRaw, r2) =>
      match splitOnceStr r2 localizzationMarker with
      | none => .error "localization not found"
      | some (codeRaw, _) =>
        .ok (trimEndMatchesChar ';' (trimEnd labelRaw),
             trimEndMatchesChar ';' (trimEnd codeRaw))

/-- The label `HashMap` of `station_list` (src/lib.rs:90-93): collect
`(value, label)` pairs left to right with insert-overwrite semantics
(later duplicates win), modelled as a lookup function. -/
def buildLabelMap (labels : List StationLabel) : String → Option String :=
  labels.foldl (fun m e => fun k => if k = e.value then some e.label else m k)
    (fun _ => none)

/-- The join-and-filter phase of `station_list` (src/lib.rs:95-108): map
each code record to a `Station` whose name is the matching label (or `""`
when absent), then drop stations with an empty name. -/
def station_list_stations (labels : List StationLabel)
    (codes : List StationCode) : List Station :=
  (codes.map (fun e =>
    { code := e.code
      url_coding := e.url_coding
      name := (buildLabelMap labels e.code).getD "" : Station })).filter
    (fun s => !(s.name = ""))

/-! ## The journey request builder (`src/journey/mod.rs`) -/

/-- Builder state (`JourneyRequest`, src/journey/mod.rs:45-89).
Passenger counts are `u8` values (stored, never computed with). -/
structure JourneyRequest where
  departure_station : String
  arrival_station : String
  interval_start_date_time : String
  interval_end_date_time : String
  adult_number : Nat
  child_number : Nat
  infant_number : Nat
  senior_number : Nat
  override_interval_time_restriction : Bool
  currency_code : String
  is_guest : Bool
  round_trip : Bool
  round_trip_interval_start_date_time : Option String
  round_trip_interval_end_date_time : Option String
deriving DecidableEq, Repr

/-- Model of `JourneyRequest::default()` (src/journey/mod.rs:91-110). -/
def JourneyRequest.default : JourneyRequest where
  departure_station := ""
  arrival_station := ""
  interval_start_date_time := ""
  interval_end_date_time := ""
  adult_number := 1
  child_number := 0
  infant_number := 0
  senior_number := 0
  override_interval_time_restriction := false
  currency_code := "EUR"
  is_guest := true
  round_trip := false
  round_trip_interval_start_date_time := none
  round_trip_interval_end_date_time := none

/-- Model of `set_interval_start_date_time` (src/journey/mod.rs:126-129): store
the `DATE_TIME_PATTERN`-encoded instant (given as epoch milliseconds). -/
def JourneyRequest.set_interval_start_date_time (jr : JourneyRequest)
    (ms : Int) : JourneyRequest :=
  { jr with interval_start_date_time := String.mk (encodeJourneyDateTime ms) }

/-- Model of `set_interval_end_date_time` (src/journey/mod.rs:132-135). -/
def JourneyRequest.set_interval_end_date_time (jr : JourneyRequest)
    (ms : Int) : JourneyRequest :=
  { jr with interval_end_date_time := String.mk (encodeJourneyDateTime ms) }

/-- The `RoundTrip` argument tuple
(`(bool, Option<DateTime<Utc>>, Option<DateTime<Utc>>)`), instants as
epoch milliseconds. -/
def RoundTrip : Type := Bool × Option Int × Option Int

/-- Builder errors (`anyhow!` values) that carry the offending input. -/
inductive BuilderError where
  | invalidRoundTrip (val : Bool × Option Int × Option Int)
deriving DecidableEq, Repr

/-- Model of `set_round_trip` (src/journey/mod.rs:138-159): flag `false` clears
both round-trip fields; flag `true` with both dates stores them encoded;
flag `true` with a missing date fails. -/
def JourneyRequest.set_round_trip (jr : JourneyRequest)
    (val : Bool × Option Int × Option Int) :
    Except BuilderError JourneyRequest :=
  match val with
  | (false, _, _) =>
    .ok { jr with
          round_trip := false
          round_trip_interval_start_date_time := none
          round_trip_interval_end_date_time := none }
  | (true, some start, some stop) =>
    .ok { jr with
          round_trip := true
          round_trip_interval_start_date_time :=
            some (String.mk (encodeJourneyDateTime start))
          round_trip_interval_end_date_time :=
            some (String.mk (encodeJourneyDateTime stop)) }
  | (true, _, _) => .error (.invalidRoundTrip val)

/-- A serialized JSON scalar (enough for `JourneyRequest`'s fields). -/
inductive JsonValue where
  | str (s : String)
  | num (n : Nat)
  | bool (b : Bool)
deriving DecidableEq, Repr

/-- Serde serialization shape of `JourneyRequest`
(src/journey/mod.rs:42-89): fields in declaration order under
`rename_all = "PascalCase"`; the two round-trip fields carry
`serde(skip_serializing_if = "Option::is_none")`, so they are emitted
only when `Some` (never as `null`). -/
def serializeJourneyRequest (jr : JourneyRequest) : List (String × JsonValue) :=
  [("DepartureStation", .str jr.departure_station),
   ("ArrivalStation", .str jr.arrival_station),
   ("IntervalStartDateTime", .str jr.interval_start_date_time),
   ("IntervalEndDateTime", .str jr.interval_end_date_time),
   ("AdultNumber", .num jr.adult_number),
   ("ChildNumber", .num jr.child_number),
   ("InfantNumber", .num jr.infant_number),
   ("SeniorNumber", .num jr.senior_number),
   ("OverrideIntervalTimeRestriction", .bool jr.override_interval_time_restriction),
   ("CurrencyCode", .str jr.currency_code),
   ("IsGuest", .bool jr.is_guest),
   ("RoundTrip", .bool jr.round_trip)]
  ++ (match jr.round_trip_interval_start_date_time with
      | none => []
      | some v => [("RoundTripIntervalStartDateTime", JsonValue.str v)])
  ++ (match jr.round_trip_interval_end_date_time with
      | none => []
      | some v => [("RoundTripIntervalEndDateTime", JsonValue.str v)])

/-- The key set of the serialized payload. -/
def serializedKeys (jr : JourneyRequest) : List String :=
  (serializeJourneyRequest jr).map Prod.fst

/-! ## The session gate (`src/lib.rs` `ItaloApi`) -/

/-- Session-holding API state (`ItaloApi`, src/lib.rs:34-38): the
`signature` is the opaque login token when held. -/
structure ItaloApi where
  signature : Option String
deriving DecidableEq, Repr

/-- Model of `is_initialized` (src/lib.rs:41-43). -/
def ItaloApi.is_initialized (a : ItaloApi) : Bool :=
  a.signature.isSome

/-- Model of `init` (src/lib.rs:45-56): perform the login call (its outcome is the
`loginResult` argument summarizing the POST + JSON decode) and store the
token; on failure the early return leaves the state untouched.  Returns
the state after the call together with the call's result. -/
def ItaloApi.init (a : ItaloApi) (loginResult : Except String String) :
    ItaloApi × Except String Unit :=
  match loginResult with
  | .ok tok => ({ signature := some tok }, .ok ())
  | .error e => (a, .error e)

/-- Model of `find_journeys` (src/lib.rs:134-155): log in only when
uninitialized, then run the search with the stored token (`unwrap` on the
signature).  `search` summarizes the POST of the serialized request;
the returned `Bool` records whether the login call was performed. -/
def ItaloApi.find_journeys {α : Type} (a : ItaloApi)
    (loginResult : Except String String) (search : String → Except String α) :
    ItaloApi × Bool × RustOutcome α :=
  let step : ItaloApi × Except String Unit × Bool :=
    if a.is_initialized then (a, .ok (), false)
    else
      let r := a.init loginResult
      (r.1, r.2, true)
  match step with
  | (a2, .error e, performed) => (a2, performed, .err e)
  | (a2, .ok (), performed) =>
    match a2.signature with
    | some tok => (a2, performed, exceptToOutcome (search tok))
    | none => (a2, performed, .panicked "called Option::unwrap on a None value")

/-! # Theorems -/

/-! ## Split, parse and print lemmas -/

theorem splitOnceChar_cons_eq (c : Char) (xs : List Char) :
    splitOnceChar c (c :: xs) = some ([], xs) := by
  simp [splitOnceChar]

theorem splitOnceChar_cons_ne (c x : Char) (xs : List Char) (h : x ≠ c) :
    splitOnceChar c (x :: xs) =
      (splitOnceChar c xs).map (fun p => (x :: p.1, p.2)) := by
  simp [splitOnceChar, h]

/-- Splitting skips over a prefix that does not contain the needle. -/
theorem splitOnceChar_append_not_mem (c : Char) (xs ys : List Char)
    (h : c ∉ xs) :
    splitOnceChar c (xs ++ ys) =
      (splitOnceChar c ys).map (fun p => (xs ++ p.1, p.2)) := by
  induction xs with
  | nil => simp
  | cons x xs ih =>
    have hx : x ≠ c := fun hxc => h (hxc ▸ List.mem_cons_self x xs)
    have hxs : c ∉ xs := fun hmem => h (List.mem_cons_of_mem x hmem)
    rw [List.cons_append, splitOnceChar_cons_ne c x _ hx, ih hxs,
      Option.map_map]
    cases splitOnceChar c ys <;> rfl

/-- Splitting at the needle placed right after a clean prefix. -/
theorem splitOnceChar_prefix (c : Char) (xs ys : List Char) (h : c ∉ xs) :
    splitOnceChar c (xs ++ c :: ys) = some (xs, ys) := by
  rw [splitOnceChar_append_not_mem c xs _ h, splitOnceChar_cons_eq]
  simp

/-- The digit accumulator distributes over append once the left part
succeeds. -/
theorem parseDigitsAux_append (xs ys : List Char) (acc v : Nat)
    (h : parseDigitsAux xs acc = some v) :
    parseDigitsAux (xs ++ ys) acc = parseDigitsAux ys v := by
  induction xs generalizing acc with
  | nil =>
    simp [parseDigitsAux] at h
    simp [h]
  | cons x xs ih =>
    by_cases hx : isAsciiDigit x
    · rw [List.cons_append, parseDigitsAux, if_pos hx]
      rw [parseDigitsAux, if_pos hx] at h
      exact ih _ h
    · rw [parseDigitsAux, if_neg hx] at h
      cases h

/-- The characters emitted by the digit loop are ASCII digits. -/
theorem natToDigitsAux_digits (fuel : Nat) :
    ∀ n, ∀ c ∈ natToDigitsAux fuel n, isAsciiDigit c = true := by
  induction fuel with
  | zero => intro n c hc; simp [natToDigitsAux] at hc
  | succ fuel ih =>
    intro n c hc
    rw [natToDigitsAux] at hc
    by_cases hn : n = 0
    · rw [if_pos hn] at hc; simp at hc
    · rw [if_neg hn, List.mem_append] at hc
      rcases hc with hc | hc
      · exact ih (n / 10) c hc
      · have hd : n % 10 < 10 := Nat.mod_lt n (by omega)
        rw [List.mem_singleton] at hc
        subst hc
        interval_cases h : n % 10 <;> decide

/-- Parsing the digit loop's output appends the printed value to the
accumulator (in base 10, at some digit width `k`). -/
theorem parseDigitsAux_natToDigitsAux (fuel : Nat) :
    ∀ n acc, n < 10 ^ fuel →
      ∃ k, parseDigitsAux (natToDigitsAux fuel n) acc =
        some (acc * 10 ^ k + n) := by
  induction fuel with
  | zero =>
    intro n acc hn
    have hn0 : n = 0 := by omega
    subst hn0
    exact ⟨0, by simp [natToDigitsAux, parseDigitsAux]⟩
  | succ fuel ih =>
    intro n acc hn
    rw [natToDigitsAux]
    by_cases hn0 : n = 0
    · subst hn0
      exact ⟨0, by simp [parseDigitsAux]⟩
    · rw [if_neg hn0]
      have hdiv : n / 10 < 10 ^ fuel := by
        rw [Nat.div_lt_iff_lt_mul (by omega)]
        calc n < 10 ^ (fuel + 1) := hn
        _ = 10 ^ fuel * 10 := by ring
      obtain ⟨k, hk⟩ := ih (n / 10) acc hdiv
      refine ⟨k + 1, ?_⟩
      rw [parseDigitsAux_append _ _ _ _ hk]
      have hd : n % 10 < 10 := Nat.mod_lt n (by omega)
      have hdig : isAsciiDigit (Char.ofNat (48 + n % 10)) = true ∧
          (Char.ofNat (48 + n % 10)).toNat - 48 = n % 10 := by
        interval_cases h : n % 10 <;> exact ⟨by decide, by decide⟩
      rw [parseDigitsAux, if_pos hdig.1, hdig.2, parseDigitsAux]
      congr 1
      have hmod := Nat.div_add_mod n 10
      ring_nf
      omega

/-- The decimal rendering of a `Nat` is never empty. -/
theorem natToDecimal_ne_nil (n : Nat) : natToDecimal n ≠ [] := by
  unfold natToDecimal
  by_cases hn : n = 0
  · simp [hn]
  · rw [if_neg hn]
    show natToDigitsAux (19 + 1) n ≠ []
    rw [natToDigitsAux, if_neg hn]
    simp

/-- The decimal rendering of a `Nat` consists of ASCII digits. -/
theorem natToDecimal_digits (n : Nat) :
    ∀ c ∈ natToDecimal n, isAsciiDigit c = true := by
  intro c hc
  unfold natToDecimal at hc
  by_cases hn : n = 0
  · rw [if_pos hn, List.mem_singleton] at hc
    subst hc; decide
  · rw [if_neg hn] at hc
    exact natToDigitsAux_digits 20 n c hc

/-- Parsing inverts decimal printing (for values of at most 20 digits,
which covers every `u64`). -/
theorem parseDigitsAux_natToDecimal (n acc : Nat) (hn : n < 10 ^ 20) :
    ∃ k, parseDigitsAux (natToDecimal n) acc = some (acc * 10 ^ k + n) := by
  unfold natToDecimal
  by_cases h0 : n = 0
  · subst h0
    exact ⟨1, by simp [parseDigitsAux, isAsciiDigit, Nat.mul_comm]⟩
  · rw [if_neg h0]
    exact parseDigitsAux_natToDigitsAux 20 n acc hn

theorem parseNatDigits_eq_aux (cs : List Char) (h : cs ≠ []) :
    parseNatDigits cs = parseDigitsAux cs 0 := by
  cases cs with
  | nil => exact absurd rfl h
  | cons c cs => rfl

/-- An ASCII digit is neither a `+` nor a `-` sign. -/
theorem isAsciiDigit_ne_sign (c : Char) (h : isAsciiDigit c = true) :
    c ≠ '+' ∧ c ≠ '-' := by
  constructor <;> intro hc <;> subst hc <;> simp [isAsciiDigit] at h

/-- A character that is not a digit and not `-` does not occur in an
integer's decimal rendering. -/
theorem not_mem_intToDecimal (s : Int) (c : Char)
    (hc : isAsciiDigit c = false) (hminus : c ≠ '-') :
    c ∉ intToDecimal s := by
  intro hmem
  unfold intToDecimal at hmem
  by_cases hneg : s < 0
  · rw [if_pos hneg] at hmem
    rcases List.mem_cons.mp hmem with h | h
    · exact hminus h
    · exact absurd (natToDecimal_digits _ _ h) (by simp [hc])
  · rw [if_neg hneg] at hmem
    exact absurd (natToDecimal_digits _ _ hmem) (by simp [hc])

/-- Parsing a printed decimal followed by extra digits: the printed
value becomes the accumulator for the suffix. -/
theorem parseNatDigits_natToDecimal_append (m : Nat) (suffix : List Char)
    (hm : m < 10 ^ 20) :
    parseNatDigits (natToDecimal m ++ suffix) = parseDigitsAux suffix m := by
  have hne : natToDecimal m ++ suffix ≠ [] := by
    intro h
    exact natToDecimal_ne_nil m (List.append_eq_nil.mp h).1
  rw [parseNatDigits_eq_aux _ hne]
  obtain ⟨k, hk⟩ := parseDigitsAux_natToDecimal m 0 hm
  rw [parseDigitsAux_append _ _ _ _ (by simpa using hk)]

theorem parseDigitsAux_three_zeros (m : Nat) :
    parseDigitsAux ['0', '0', '0'] m = some (1000 * m) := by
  simp [parseDigitsAux, isAsciiDigit]
  ring

/-- Parsing the decimal rendering of `s` with three appended zero digits
yields `s * 1000`, as long as the result fits in an `i64`. -/
theorem parseI64_intToDecimal_suffix000 (s : Int)
    (hbound : s.natAbs * 1000 ≤ i64Max) :
    parseI64 (intToDecimal s ++ ['0', '0', '0']) = some (s * 1000) := by
  have hlt : s.natAbs < 10 ^ 20 := by
    have : s.natAbs * 1000 ≤ i64Max := hbound
    unfold i64Max at this
    omega
  by_cases hneg : s < 0
  · have hdec : intToDecimal s = '-' :: natToDecimal s.natAbs := by
      unfold intToDecimal
      rw [if_pos hneg]
      have hts : (-s).toNat = s.natAbs := by omega
      rw [hts]
    rw [hdec, List.cons_append, parseI64, if_neg (by decide), if_pos rfl,
      parseNatDigits_natToDecimal_append _ _ hlt, parseDigitsAux_three_zeros,
      Option.some_bind]
    have hcond : 1000 * s.natAbs ≤ i64Max + 1 := by omega
    rw [if_pos hcond]
    congr 1
    have habs : (s.natAbs : Int) = -s := by omega
    have hcast : ((1000 * s.natAbs : Nat) : Int) = 1000 * (s.natAbs : Int) := by
      push_cast
      ring
    rw [hcast, habs]
    ring
  · have hdec : intToDecimal s = natToDecimal s.natAbs := by
      unfold intToDecimal
      rw [if_neg hneg]
      have hts : s.toNat = s.natAbs := by omega
      rw [hts]
    obtain ⟨c, cs, hcons⟩ := List.exists_cons_of_ne_nil (natToDecimal_ne_nil s.natAbs)
    have hdig : isAsciiDigit c = true :=
      natToDecimal_digits s.natAbs c (by rw [hcons]; exact List.mem_cons_self c cs)
    obtain ⟨hplus, hminus⟩ := isAsciiDigit_ne_sign c hdig
    rw [hdec, hcons, List.cons_append, parseI64, if_neg hplus, if_neg hminus,
      ← List.cons_append, ← hcons, parseNatDigits_natToDecimal_append _ _ hlt,
      parseDigitsAux_three_zeros, Option.some_bind]
    have hcond : 1000 * s.natAbs ≤ i64Max := by omega
    rw [if_pos hcond]
    congr 1
    have habs : (s.natAbs : Int) = s := by omega
    have hcast : ((1000 * s.natAbs : Nat) : Int) = 1000 * (s.natAbs : Int) := by
      push_cast
      ring
    rw [hcast, habs]
    ring

/-- Parsing the decimal rendering of a nonnegative `s` yields `s`
(digit run with no suffix), as long as `s` fits in an `i64`. -/
theorem parseI64_intToDecimal (s : Int) (hlo : 0 ≤ s)
    (hhi : s.natAbs ≤ i64Max) :
    parseI64 (intToDecimal s) = some s := by
  have hlt : s.natAbs < 10 ^ 20 := by unfold i64Max at hhi; omega
  have hdec : intToDecimal s = natToDecimal s.natAbs := by
    unfold intToDecimal
    rw [if_neg (show ¬ s < 0 by omega)]
    have hts : s.toNat = s.natAbs := by omega
    rw [hts]
  obtain ⟨c, cs, hcons⟩ := List.exists_cons_of_ne_nil (natToDecimal_ne_nil s.natAbs)
  have hdig : isAsciiDigit c = true :=
    natToDecimal_digits s.natAbs c (by rw [hcons]; exact List.mem_cons_self c cs)
  obtain ⟨hplus, hminus⟩ := isAsciiDigit_ne_sign c hdig
  have hparse : parseNatDigits (natToDecimal s.natAbs) = some s.natAbs := by
    have happ : natToDecimal s.natAbs = natToDecimal s.natAbs ++ [] := by simp
    rw [happ, parseNatDigits_natToDecimal_append _ _ hlt]
    rfl
  rw [hdec, hcons, parseI64, if_neg hplus, if_neg hminus, ← hcons, hparse,
    Option.some_bind]
  rw [if_pos hhi]
  congr 1
  omega

/-- Claim C1 (code_bug evidence). On the three malformed shapes the claim
lists, `extract_utc_time` returns the malformed-timestamp error for a
missing `(` and for a missing `+` after the first `(`, but on a
non-numeric run between them it **panics** (the Rust code calls
`.expect("Timestamp conversion failed")` on the parse) instead of
returning a failure. -/
theorem C1_extract_utc_time_malformed_shapes :
    extract_utc_time "no delimiters at all".data
      = .err "Failed to extract dateTime" ∧
    extract_utc_time "/Date(12345)/".data
      = .err "Failed to extract dateTime" ∧
    extract_utc_time "/Date(abc+0000)/".data
      = .panicked "Timestamp conversion failed" := by
  refine ⟨by decide, by decide, by decide⟩

/-- Claim C2 (counterexample). The instant at epoch millisecond 500 encodes
to `/Date(0000+0000)/`, which decodes to epoch second 0, i.e. epoch
millisecond 0 ≠ 500: the decode/encode round trip is **not** exact to
millisecond precision. -/
theorem C2_roundtrip_counterexample :
    encodeJourneyDateTime 500 = "/Date(0000+0000)/".data ∧
    extract_utc_time (encodeJourneyDateTime 500) = .ok 0 ∧
    (0 : Int) * 1000 ≠ 500 := by
  refine ⟨by decide, by decide, by decide⟩

/-- Claim C3 (counterexample). Decoding `/Date(1700000000+0100)/` yields
epoch **second** 1700000, not epoch second 1700000000: the digit run is
interpreted as milliseconds and divided by 1000. -/
theorem C3_decode_counterexample :
    extract_utc_time "/Date(1700000000+0100)/".data = .ok 1700000 ∧
    (1700000 : Int) ≠ 1700000000 := by
  refine ⟨by decide, by decide⟩

/-- Claim C4 (counterexample). The interval setter's encoding of the
instant at epoch millisecond 1700000000000 is **not** the string
`/Date(1700000000+0000)/` the claim expects. -/
theorem C4_encode_counterexample :
    (JourneyRequest.default.set_interval_start_date_time
        1700000000000).interval_start_date_time
      ≠ "/Date(1700000000+0000)/" := by
  decide

/-- Claim C4 (amended). Encoding the instant at epoch millisecond
1700000000000 via `set_interval_start_date_time` (the
`DATE_TIME_PATTERN` format) produces exactly
`/Date(1700000000000+0000)/`: the pattern renders the epoch seconds and
then appends the literal digits `000`, so the emitted number is the
epoch in milliseconds. -/
theorem C4_encode_amended :
    (JourneyRequest.default.set_interval_start_date_time
        1700000000000).interval_start_date_time
      = "/Date(1700000000000+0000)/" := by
  decide

/-- Claim C7. `set_round_trip` with flag `false` succeeds and clears both
round-trip date fields whatever the start/end arguments are; with flag
`true` and both dates present it stores both, encoded; with flag `true`
and either date absent it fails with the invalid-round-trip error. -/
theorem C7_set_round_trip_behavior (jr : JourneyRequest) :
    (∀ os oe, jr.set_round_trip (false, os, oe) =
      .ok { jr with
            round_trip := false
            round_trip_interval_start_date_time := none
            round_trip_interval_end_date_time := none }) ∧
    (∀ s e, jr.set_round_trip (true, some s, some e) =
      .ok { jr with
            round_trip := true
            round_trip_interval_start_date_time :=
              some (String.mk (encodeJourneyDateTime s))
            round_trip_interval_end_date_time :=
              some (String.mk (encodeJourneyDateTime e)) }) ∧
    (∀ os oe, os = none ∨ oe = none →
      jr.set_round_trip (true, os, oe) =
        .error (.invalidRoundTrip (true, os, oe))) := by
  refine ⟨fun os oe => rfl, fun s e => rfl, fun os oe h => ?_⟩
  match os, oe, h with
  | none, _, _ => rfl
  | some _, none, _ => rfl
  | some _, some _, h => rcases h with h | h <;> exact absurd h (by simp)

/-- Witness for C7 at a concrete input: flag `true` with a missing start
date fails with the invalid-round-trip error. -/
theorem C7_set_round_trip_behavior_witness :
    JourneyRequest.default.set_round_trip (true, none, some 5) =
      .error (.invalidRoundTrip (true, none, some 5)) :=
  (C7_set_round_trip_behavior JourneyRequest.default).2.2 none (some 5)
    (Or.inl rfl)

/-- Claim C8. When both round-trip date fields are `none`, the serialized
payload contains neither round-trip key (absent, not `null`); when both
are set, both keys appear. -/
theorem C8_serialized_round_trip_keys (jr : JourneyRequest) :
    (jr.round_trip_interval_start_date_time = none →
     jr.round_trip_interval_end_date_time = none →
      "RoundTripIntervalStartDateTime" ∉ serializedKeys jr ∧
      "RoundTripIntervalEndDateTime" ∉ serializedKeys jr) ∧
    (∀ a b, jr.round_trip_interval_start_date_time = some a →
      jr.round_trip_interval_end_date_time = some b →
      "RoundTripIntervalStartDateTime" ∈ serializedKeys jr ∧
      "RoundTripIntervalEndDateTime" ∈ serializedKeys jr) := by
  constructor
  · intro h1 h2
    simp [serializedKeys, serializeJourneyRequest, h1, h2]
  · intro a b h1 h2
    simp [serializedKeys, serializeJourneyRequest, h1, h2]

/-- Witness for C8 at a concrete input: the default request (both
round-trip fields unset) serializes without either round-trip key. -/
theorem C8_serialized_round_trip_keys_witness :
    "RoundTripIntervalStartDateTime" ∉ serializedKeys JourneyRequest.default ∧
    "RoundTripIntervalEndDateTime" ∉ serializedKeys JourneyRequest.default :=
  (C8_serialized_round_trip_keys JourneyRequest.default).1 rfl rfl

/-- Claim C9. `find_journeys` performs the login call exactly when no
session token is held; a failed login leaves the session state unchanged
(no token stored), and when a token is already held no login happens and
the stored token is the one passed to the search call. -/
theorem C9_find_journeys_session_gate {α : Type} (a : ItaloApi)
    (loginResult : Except String String) (search : String → Except String α) :
    ((a.find_journeys loginResult search).2.1 = true ↔ a.signature = none) ∧
    (∀ e, a.signature = none → loginResult = .error e →
      (a.find_journeys loginResult search).1 = a ∧
      (a.find_journeys loginResult search).2.2 = .err e) ∧
    (∀ tok, a.signature = some tok →
      (a.find_journeys loginResult search).1 = a ∧
      (a.find_journeys loginResult search).2.1 = false ∧
      (a.find_journeys loginResult search).2.2 =
        exceptToOutcome (search tok)) := by
  obtain ⟨sig⟩ := a
  cases sig with
  | none =>
    cases loginResult with
    | ok tok =>
      refine ⟨by simp [ItaloApi.find_journeys, ItaloApi.is_initialized,
        ItaloApi.init], ?_, ?_⟩
      · intro e _ he; cases he
      · intro t ht; cases ht
    | error e =>
      refine ⟨by simp [ItaloApi.find_journeys, ItaloApi.is_initialized,
        ItaloApi.init], ?_, ?_⟩
      · intro e' _ he
        injection he with he
        subst he
        exact ⟨rfl, rfl⟩
      · intro t ht; cases ht
  | some tok =>
    refine ⟨by simp [ItaloApi.find_journeys, ItaloApi.is_initialized],
      ?_, ?_⟩
    · intro e he; cases he
    · intro t ht
      injection ht with ht
      subst ht
      exact ⟨rfl, rfl, rfl⟩

/-- Witness for C9 at a concrete input: with no token held and a failing
login, the state is unchanged and the error surfaces. -/
theorem C9_find_journeys_session_gate_witness :
    (ItaloApi.find_journeys (α := Nat) ⟨none⟩ (.error "login down")
        (fun _ => .ok 0)).1 = ⟨none⟩ ∧
    (ItaloApi.find_journeys (α := Nat) ⟨none⟩ (.error "login down")
        (fun _ => .ok 0)).2.2 = .err "login down" :=
  (C9_find_journeys_session_gate ⟨none⟩ (.error "login down")
    (fun _ => .ok 0)).2.1 "login down" rfl rfl

/-- Collecting one more `(value, label)` pair overwrites exactly the new
pair's key (the `HashMap` insert-overwrite step). -/
theorem buildLabelMap_append (labels : List StationLabel) (e : StationLabel)
    (k : String) :
    buildLabelMap (labels ++ [e]) k =
      if k = e.value then some e.label else buildLabelMap labels k := by
  simp [buildLabelMap, List.foldl_append]

/-- A successful label-map lookup comes from some label record whose
`value` is the looked-up key. -/
theorem mem_of_buildLabelMap_eq_some (labels : List StationLabel)
    (k v : String) (h : buildLabelMap labels k = some v) :
    ∃ lab ∈ labels, lab.value = k ∧ lab.label = v := by
  induction labels using List.reverseRecOn with
  | nil => simp [buildLabelMap] at h
  | append_singleton l e ih =>
    rw [buildLabelMap_append] at h
    by_cases hk : k = e.value
    · rw [if_pos hk] at h
      injection h with h
      exact ⟨e, by simp, hk.symm, h⟩
    · rw [if_neg hk] at h
      obtain ⟨lab, hmem, hv, hl⟩ := ih h
      exact ⟨lab, by simp [hmem], hv, hl⟩

/-- When no label record's `value` matches the key, the label-map lookup
is `none`. -/
theorem buildLabelMap_eq_none (labels : List StationLabel) (k : String)
    (h : ∀ lab ∈ labels, lab.value ≠ k) : buildLabelMap labels k = none := by
  induction labels using List.reverseRecOn with
  | nil => simp [buildLabelMap]
  | append_singleton l e ih =>
    rw [buildLabelMap_append]
    have hke : k ≠ e.value := fun hk => (h e (by simp)) hk.symm
    rw [if_neg hke]
    exact ih fun lab hmem => h lab (by simp [hmem])

/-- Claim C6. The station catalog join: every emitted station has a
non-empty name; each emitted station's name is resolved from a label
record whose `value` matches the station's code; emitted stations keep
the order of their code records; and a code record with no matching
label record yields no station (its resolved name is empty, which is
filtered, not a failure). -/
theorem C6_station_catalog_properties (labels : List StationLabel)
    (codes : List StationCode) :
    (∀ s ∈ station_list_stations labels codes, s.name ≠ "") ∧
    (∀ s ∈ station_list_stations labels codes,
      ∃ lab ∈ labels, lab.value = s.code ∧ lab.label = s.name) ∧
    ((station_list_stations labels codes).map Station.code).Sublist
      (codes.map StationCode.code) ∧
    (∀ c ∈ codes, (∀ lab ∈ labels, lab.value ≠ c.code) →
      ∀ s ∈ station_list_stations labels codes, s.code ≠ c.code) := by
  have hname : ∀ s ∈ station_list_stations labels codes,
      s.name ≠ "" ∧ s.name = (buildLabelMap labels s.code).getD "" := by
    intro s hs
    unfold station_list_stations at hs
    rw [List.mem_filter] at hs
    obtain ⟨hmem, hfilt⟩ := hs
    rw [List.mem_map] at hmem
    obtain ⟨e, _, rfl⟩ := hmem
    refine ⟨?_, rfl⟩
    simpa using hfilt
  refine ⟨fun s hs => (hname s hs).1, ?_, ?_, ?_⟩
  · intro s hs
    obtain ⟨hne, heq⟩ := hname s hs
    cases hmap : buildLabelMap labels s.code with
    | none => rw [hmap] at heq; exact absurd heq hne
    | some v =>
      rw [hmap] at heq
      simp only [Option.getD_some] at heq
      subst heq
      exact mem_of_buildLabelMap_eq_some labels s.code s.name hmap
  · unfold station_list_stations
    have hsub := List.filter_sublist (l := (codes.map fun e =>
      ({ code := e.code
         url_coding := e.url_coding
         name := (buildLabelMap labels e.code).getD "" : Station })))
      (p := fun s => !(s.name = ""))
    have := hsub.map Station.code
    simpa [List.map_map, Function.comp] using this
  · intro c _ hnomatch s hs hcode
    obtain ⟨hne, heq⟩ := hname s hs
    rw [hcode, buildLabelMap_eq_none labels c.code hnomatch] at heq
    exact hne heq

/-- Witness for C6 at a concrete input: the single joined station of the
spec's end-to-end scenario has a non-empty name. -/
theorem C6_station_catalog_properties_witness :
    ({ code := "MC_", url_coding := "milano-centrale",
       name := "Milano Centrale" } : Station).name ≠ "" :=
  (C6_station_catalog_properties
      [{ label := "Milano Centrale", value := "MC_" }]
      [{ code := "MC_", url_coding := "milano-centrale" }]).1
    { code := "MC_", url_coding := "milano-centrale",
      name := "Milano Centrale" }
    (by decide)

/-- The `chrono` timestamp range is comfortably inside the `i64` range,
even after scaling by 1000. -/
theorem chrono_range_mul1000_le_i64Max (s : Int)
    (h1 : minChronoSecs ≤ s) (h2 : s ≤ maxChronoSecs) :
    s.natAbs * 1000 ≤ i64Max := by
  have hmin : minChronoSecs = -8334601228800 := by decide
  have hmax : maxChronoSecs = 8210266876799 := by decide
  rw [hmin] at h1
  rw [hmax] at h2
  unfold i64Max
  omega

/-- Decoding an encoded instant: the two splits isolate exactly the
printed seconds followed by the literal `000`, which parses back to the
seconds scaled by 1000. -/
theorem extract_utc_time_encode (ms : Int)
    (h1 : minChronoSecs ≤ ms.fdiv 1000) (h2 : ms.fdiv 1000 ≤ maxChronoSecs) :
    extract_utc_time (encodeJourneyDateTime ms) = .ok (ms.fdiv 1000) := by
  have hsplit1 : splitOnceChar '(' (encodeJourneyDateTime ms) =
      some ("/Date".data, intToDecimal (ms.fdiv 1000) ++ "000+0000)/".data) := by
    have hshape : encodeJourneyDateTime ms =
        "/Date".data ++ '(' :: (intToDecimal (ms.fdiv 1000) ++ "000+0000)/".data) :=
      rfl
    rw [hshape, splitOnceChar_prefix _ _ _ (by decide)]
  have hplusfree : '+' ∉ intToDecimal (ms.fdiv 1000) ++ ['0', '0', '0'] := by
    intro hmem
    rcases List.mem_append.mp hmem with h | h
    · exact not_mem_intToDecimal _ '+' (by decide) (by decide) h
    · simp at h
  have hsplit2 : splitOnceChar '+' (intToDecimal (ms.fdiv 1000) ++ "000+0000)/".data) =
      some (intToDecimal (ms.fdiv 1000) ++ ['0', '0', '0'], "0000)/".data) := by
    have hshape : intToDecimal (ms.fdiv 1000) ++ "000+0000)/".data =
        (intToDecimal (ms.fdiv 1000) ++ ['0', '0', '0']) ++ '+' :: "0000)/".data := by
      rw [List.append_assoc]
      rfl
    rw [hshape, splitOnceChar_prefix _ _ _ hplusfree]
  have hparse : parseI64 (intToDecimal (ms.fdiv 1000) ++ ['0', '0', '0']) =
      some (ms.fdiv 1000 * 1000) :=
    parseI64_intToDecimal_suffix000 _ (chrono_range_mul1000_le_i64Max _ h1 h2)
  have hok : fromTimestampOk (ms.fdiv 1000) = true := by
    simp only [fromTimestampOk, Bool.and_eq_true, decide_eq_true_eq]
    exact ⟨h1, h2⟩
  unfold extract_utc_time
  rw [hsplit1]
  simp only
  rw [hsplit2]
  simp only
  rw [hparse]
  simp only
  rw [Int.mul_tdiv_cancel _ (by norm_num), hok]
  simp

/-- Claim C2 (amended). Decoding the interval setters' encoding of an
instant recovers the instant truncated to whole **seconds** (the `%s`
format drops the sub-second part); the round trip is exact precisely for
instants whose millisecond component is zero, not to millisecond
precision in general. -/
theorem C2_roundtrip_amended (ms : Int)
    (h1 : minChronoSecs ≤ ms.fdiv 1000) (h2 : ms.fdiv 1000 ≤ maxChronoSecs) :
    extract_utc_time (encodeJourneyDateTime ms) = .ok (ms.fdiv 1000) ∧
    (ms % 1000 = 0 → ms.fdiv 1000 * 1000 = ms) := by
  refine ⟨extract_utc_time_encode ms h1 h2, fun hmod => ?_⟩
  obtain ⟨q, rfl⟩ := Int.dvd_of_emod_eq_zero hmod
  rw [Int.mul_fdiv_cancel_left q (by norm_num)]
  ring

/-- Witness for C2 (amended) at a concrete input: epoch millisecond
1700000000500 decodes back to epoch second 1700000000. -/
theorem C2_roundtrip_amended_witness :
    extract_utc_time (encodeJourneyDateTime 1700000000500) =
      .ok ((1700000000500 : Int).fdiv 1000) ∧
    ((1700000000500 : Int) % 1000 = 0 →
      (1700000000500 : Int).fdiv 1000 * 1000 = 1700000000500) :=
  C2_roundtrip_amended 1700000000500 (by decide) (by decide)

/-- Claim C3 (amended). Decoding `/Date(1700000000+` followed by **any**
suffix yields epoch second 1700000 (the digit run 1700000000 is read as
milliseconds and divided by 1000); everything after the first `+` is
discarded, so every offset suffix starting with `+` gives this same
instant.  (A suffix with no `+`, such as `-0100)/`, would fail instead.) -/
theorem C3_decode_offset_ignored (rest : List Char) :
    extract_utc_time ("/Date(1700000000+".data ++ rest) = .ok 1700000 := by
  have hshape : "/Date(1700000000+".data ++ rest =
      "/Date".data ++ '(' :: ("1700000000".data ++ '+' :: rest) := rfl
  have hsplit1 : splitOnceChar '(' ("/Date(1700000000+".data ++ rest) =
      some ("/Date".data, "1700000000".data ++ '+' :: rest) := by
    rw [hshape, splitOnceChar_prefix _ _ _ (by decide)]
  have hsplit2 : splitOnceChar '+' ("1700000000".data ++ '+' :: rest) =
      some ("1700000000".data, rest) :=
    splitOnceChar_prefix _ _ _ (by decide)
  have hparse : parseI64 "1700000000".data = some 1700000000 := by decide
  unfold extract_utc_time
  rw [hsplit1]
  simp only
  rw [hsplit2]
  simp only
  rw [hparse]
  simp only
  rw [show (1700000000 : Int).tdiv 1000 = 1700000 from by decide]
  rw [show fromTimestampOk 1700000 = true from by decide]
  simp

/-- Witness for C3 (amended) at the concrete offset suffix `0100)/`. -/
theorem C3_decode_offset_ignored_witness :
    extract_utc_time ("/Date(1700000000+".data ++ "0100)/".data) =
      .ok 1700000 :=
  C3_decode_offset_ignored "0100)/".data

/-- Claim C10 (counterexample). On the digit run 1700000000000 the two
accessor families yield the **same** instant — epoch millisecond
1700000000000 — not instants a factor of 1000 apart:
`departure_date` keeps the run as milliseconds while the segment/stop
accessors divide it by 1000 and reinterpret the quotient as seconds,
which denotes the same point in time. -/
theorem C10_same_instant_counterexample :
    departure_date_instant_ms "/Date(1700000000000+0000)/".data
      = .ok 1700000000000 ∧
    extract_utc_time_instant_ms "/Date(1700000000000+0000)/".data
      = .ok 1700000000000 ∧
    ¬ ((1700000000000 : Int) = 1000 * 1700000000000 ∨
       (1700000000000 : Int) * 1000 = 1700000000000) := by
  refine ⟨by decide, by decide, by decide⟩

/-- Claim C10 (amended). For any nonnegative in-range digit run `n`:
`JourneysSolution::departure_date` interprets `n` directly as epoch
milliseconds (no division), the `JourneySegment`/`Stop` accessors
interpret `n.tdiv 1000` as epoch seconds — i.e. the instant at epoch
millisecond `n.tdiv 1000 * 1000` — and whenever `n` is a multiple of
1000 (as every encoder-produced run is) the two instants coincide. -/
theorem C10_accessor_families_agree (n : Int) (hn : 0 ≤ n)
    (hmax : n ≤ maxChronoSecs * 1000) :
    departure_date_instant_ms (encodedTimestampString n) = .ok n ∧
    extract_utc_time_instant_ms (encodedTimestampString n) =
      .ok (n.tdiv 1000 * 1000) ∧
    ((1000 : Int) ∣ n → n.tdiv 1000 * 1000 = n) := by
  have hi64 : n.natAbs ≤ i64Max := by
    have hmax' : maxChronoSecs = 8210266876799 := by decide
    rw [hmax'] at hmax
    unfold i64Max
    omega
  have hsplit1 : splitOnceChar '(' (encodedTimestampString n) =
      some ("/Date".data, intToDecimal n ++ "+0000)/".data) := by
    have hshape : encodedTimestampString n =
        "/Date".data ++ '(' :: (intToDecimal n ++ "+0000)/".data) := rfl
    rw [hshape, splitOnceChar_prefix _ _ _ (by decide)]
  have hsplit2 : splitOnceChar '+' (intToDecimal n ++ "+0000)/".data) =
      some (intToDecimal n, "0000)/".data) := by
    have hshape : intToDecimal n ++ "+0000)/".data =
        intToDecimal n ++ '+' :: "0000)/".data := rfl
    rw [hshape, splitOnceChar_prefix _ _ _
      (not_mem_intToDecimal _ '+' (by decide) (by decide))]
  have hparse : parseI64 (intToDecimal n) = some n :=
    parseI64_intToDecimal n hn hi64
  have htdiv : n.tdiv 1000 = n / 1000 := Int.tdiv_eq_ediv hn (by norm_num)
  have hsecs_lo : minChronoSecs ≤ n.tdiv 1000 := by
    have h0 : (0 : Int) ≤ n.tdiv 1000 := Int.tdiv_nonneg hn (by norm_num)
    have hm : minChronoSecs ≤ 0 := by decide
    omega
  have hsecs_hi : n.tdiv 1000 ≤ maxChronoSecs := by
    rw [htdiv]
    calc n / 1000 ≤ maxChronoSecs * 1000 / 1000 :=
          Int.ediv_le_ediv (by norm_num) hmax
    _ = maxChronoSecs := Int.mul_ediv_cancel _ (by norm_num)
  refine ⟨?_, ?_, ?_⟩
  · have hmok : fromTimestampMillisOk n = true := by
      simp only [fromTimestampMillisOk, Bool.and_eq_true, decide_eq_true_eq]
      have hm : minChronoSecs * 1000 ≤ 0 := by decide
      exact ⟨by omega, by omega⟩
    unfold departure_date_instant_ms
    rw [hsplit1]
    simp only
    rw [hsplit2]
    simp only
    rw [hparse]
    simp only
    rw [hmok]
    simp
  · have hok : fromTimestampOk (n.tdiv 1000) = true := by
      simp only [fromTimestampOk, Bool.and_eq_true, decide_eq_true_eq]
      exact ⟨hsecs_lo, hsecs_hi⟩
    unfold extract_utc_time_instant_ms extract_utc_time
    rw [hsplit1]
    simp only
    rw [hsplit2]
    simp only
    rw [hparse]
    simp only
    rw [hok]
    simp
  · intro hdvd
    obtain ⟨q, rfl⟩ := hdvd
    rw [Int.mul_tdiv_cancel_left q (by norm_num)]
    ring

/-- Witness for C10 (amended) at the concrete digit run 1700000000000:
both accessor families denote epoch millisecond 1700000000000. -/
theorem C10_accessor_families_agree_witness :
    departure_date_instant_ms (encodedTimestampString 1700000000000)
      = .ok 1700000000000 ∧
    extract_utc_time_instant_ms (encodedTimestampString 1700000000000)
      = .ok ((1700000000000 : Int).tdiv 1000 * 1000) ∧
    ((1000 : Int) ∣ 1700000000000 →
      (1700000000000 : Int).tdiv 1000 * 1000 = 1700000000000) :=
  C10_accessor_families_agree 1700000000000 (by decide) (by decide)

/-- A pattern starts every string it prefixes. -/
theorem listStartsWith_append (pat rest : List Char) :
    listStartsWith pat (pat ++ rest) = true := by
  induction pat with
  | nil => rfl
  | cons p ps ih => simp [listStartsWith, ih]

/-- One step of `splitOnceStr` past a position where the pattern does
not start. -/
theorem splitOnceStr_cons_not_start (pat : List Char) (c : Char)
    (cs : List Char) (h : listStartsWith pat (c :: cs) = false) :
    splitOnceStr (c :: cs) pat =
      (splitOnceStr cs pat).map (fun p => (c :: p.1, p.2)) := by
  rw [splitOnceStr.eq_def, if_neg (by simp [h])]

/-- The split `splitOnceStr` splits at a decomposition point provided no earlier
position hosts an occurrence of the pattern (first-occurrence
semantics, used to evaluate the extractor on structurally-described
documents). -/
theorem splitOnceStr_at_first (pat : List Char) :
    ∀ pre post, noOccursBefore pat (pre ++ pat ++ post) pre.length →
      splitOnceStr (pre ++ pat ++ post) pat = some (pre, post) := by
  intro pre
  induction pre with
  | nil =>
    intro post _
    rw [List.nil_append, splitOnceStr.eq_def,
      if_pos (listStartsWith_append pat post)]
    simp
  | cons c pre ih =>
    intro post hfirst
    have hshape : ((c :: pre) ++ pat) ++ post = c :: ((pre ++ pat) ++ post) := by
      simp
    have hsw : listStartsWith pat (c :: ((pre ++ pat) ++ post)) = false := by
      have h0 := hfirst 0 (Nat.succ_pos _)
      unfold occursAt at h0
      rw [hshape] at h0
      simpa using h0
    have hrec : splitOnceStr ((pre ++ pat) ++ post) pat = some (pre, post) := by
      refine ih post fun i hi => ?_
      have hshift := hfirst (i + 1) (by simpa using Nat.succ_lt_succ hi)
      unfold occursAt at hshift ⊢
      rw [hshape] at hshift
      simpa using hshift
    rw [hshape, splitOnceStr_cons_not_start pat c _ hsw, hrec]
    rfl

/-- When the pattern occurs nowhere in the string, `splitOnceStr`
returns `none`. -/
theorem splitOnceStr_none (pat : List Char) :
    ∀ s, noOccurs pat s → splitOnceStr s pat = none := by
  intro s
  induction s with
  | nil =>
    intro h
    have h0 := h 0 (Nat.succ_pos _)
    unfold occursAt at h0
    rw [List.drop_nil] at h0
    rw [splitOnceStr.eq_def, if_neg (by simpa using h0)]
  | cons c cs ih =>
    intro h
    have h0 := h 0 (Nat.succ_pos _)
    unfold occursAt at h0
    simp only [List.drop_zero] at h0
    have hrec : splitOnceStr cs pat = none := by
      refine ih fun i hi => ?_
      have hshift := h (i + 1) (by simpa using Nat.succ_lt_succ hi)
      unfold occursAt at hshift ⊢
      simpa using hshift
    rw [splitOnceStr_cons_not_start pat c cs (by simpa using h0), hrec]
    rfl

/-- Claim C5 (counterexample). The marker-extraction step trims **all**
trailing semicolons, not a single one: on a label region ending in `;;`,
the code yields `[1]` where the claim's single-semicolon trimming would
yield `[1];`. -/
theorem C5_trailing_semicolon_counterexample :
    extract_region
        "ItaloInViaggio.Resources.stationList = [1];;ItaloInViaggio.Resources.stationCoding = x".data
        stationListMarker stationCodingMarker
        "stationList not found" "stationCoding not found"
      = .ok "[1]".data ∧
    extract_region_single_semi
        "ItaloInViaggio.Resources.stationList = [1];;ItaloInViaggio.Resources.stationCoding = x".data
        stationListMarker stationCodingMarker
        "stationList not found" "stationCoding not found"
      = .ok "[1];".data ∧
    ("[1]".data : List Char) ≠ "[1];".data := by
  refine ⟨by decide, by decide, by decide⟩

/-- Claim C5 (amended). The marker-extraction step of `station_list`
returns exactly the text strictly between the first occurrence of the
start marker and the first occurrence of the end marker found after it,
with trailing whitespace and **all** trailing `;` characters trimmed
(not just a single one); if the start marker is absent it fails with the
error naming it, and if the end marker is absent after the start marker
it fails with the error naming the end marker. -/
theorem C5_marker_extraction_amended (A B : List Char) (eA eB : String) :
    (∀ doc, noOccurs A doc → extract_region doc A B eA eB = .error eA) ∧
    (∀ pre rest, noOccursBefore A (pre ++ A ++ rest) pre.length →
      noOccurs B rest →
      extract_region (pre ++ A ++ rest) A B eA eB = .error eB) ∧
    (∀ pre mid post,
      noOccursBefore A (pre ++ A ++ (mid ++ B ++ post)) pre.length →
      noOccursBefore B (mid ++ B ++ post) mid.length →
      extract_region (pre ++ A ++ (mid ++ B ++ post)) A B eA eB =
        .ok (trimEndMatchesChar ';' (trimEnd mid))) := by
  refine ⟨?_, ?_, ?_⟩
  · intro doc h
    unfold extract_region
    rw [splitOnceStr_none A doc h]
  · intro pre rest hfirst hnone
    unfold extract_region
    rw [splitOnceStr_at_first A pre rest hfirst]
    simp only
    rw [splitOnceStr_none B rest hnone]
  · intro pre mid post hA hB
    unfold extract_region
    rw [splitOnceStr_at_first A pre (mid ++ B ++ post) hA]
    simp only
    rw [splitOnceStr_at_first B mid post hB]

/-- Witness for C5 (amended) at a concrete document: the label region
`[2];` between the two real `station_list` markers is extracted and
trimmed of its trailing semicolon. -/
theorem C5_marker_extraction_amended_witness :
    extract_region
        ([] ++ stationListMarker ++ ("[2];".data ++ stationCodingMarker ++ []))
        stationListMarker stationCodingMarker
        "stationList not found" "stationCoding not found"
      = .ok (trimEndMatchesChar ';' (trimEnd "[2];".data)) :=
  (C5_marker_extraction_amended stationListMarker stationCodingMarker
      "stationList not found" "stationCoding not found").2.2
    [] "[2];".data [] (by decide) (by decide)

end ItaloApiModel
